import Mathlib

/-!
Verification of the MechGen F0AM conversion core
(`src/utils/box_model_f0am/fun_reaction_extractor.py`).

The Python code is shallowly embedded: files become lists of logical lines
(newline terminators stripped, so `lines.index(marker + "\n")` becomes an
index search for the marker string and `split("\n")[0]` becomes the
identity), Python floats are modelled as exact decimal rationals (every
float literal appearing in the mechanism data is an exact decimal, and all
arithmetic performed on them here is far from any decimal rounding
boundary, so the rendered strings agree with CPython), and fallible code
returns `Except`. Pandas bookkeeping that does not flow into any returned
value (the `df_reactions` frame) is omitted; `dropna` on a column of
Python strings is a no-op and is omitted as well.
-/

namespace MechGen

/-- Python `str.split(sep)` for a single-character separator: splits on every
occurrence, keeping empty pieces, and always returns at least one piece. -/
def splitChar (sep : Char) (l : List Char) : List (List Char) :=
  l.foldr
    (fun c acc =>
      match acc with
      | [] => [[c]]
      | h :: t => if c = sep then [] :: h :: t else (c :: h) :: t)
    [[]]

/-- `splitChar` lifted to `String`. -/
def strSplitChar (s : String) (sep : Char) : List String :=
  (splitChar sep s.toList).map String.mk

/-- Accumulator for Python whitespace `str.split()`: tokens of non-whitespace
runs, empty pieces discarded. -/
def splitWsAux : List Char → List Char → List (List Char)
  | [], acc => if acc.isEmpty then [] else [acc.reverse]
  | c :: cs, acc =>
    if c.isWhitespace then
      if acc.isEmpty then splitWsAux cs [] else acc.reverse :: splitWsAux cs []
    else splitWsAux cs (c :: acc)

/-- Python `str.split()` with no argument (whitespace runs, no empties). -/
def pySplitWsStr (s : String) : List String :=
  (splitWsAux s.toList []).map String.mk

/-- Python `str.replace("-", "_")`: a single-character replacement is a
character map. -/
def underscore (s : String) : String :=
  String.mk (s.toList.map (fun c => if c = '-' then '_' else c))

/-- Python `str.startswith(pre)` (structural, so that proofs can evaluate
it). -/
def pyStartsWith (s pre : String) : Bool :=
  pre.toList.isPrefixOf s.toList

/-- Python `str.strip()` (structural). -/
def pyTrim (s : String) : String :=
  String.mk (((s.toList.dropWhile Char.isWhitespace).reverse.dropWhile
    Char.isWhitespace).reverse)

/-- Python `str.replace("#", "")`: removing a single character is a filter. -/
def removeHash (s : String) : String :=
  String.mk (s.toList.filter (fun c => c ≠ '#'))

/-- Remove the first occurrence of a character
(Python `str.replace(ch, "", 1)`). -/
def removeFirstChar (ch : Char) : List Char → List Char
  | [] => []
  | c :: cs => if c = ch then cs else c :: removeFirstChar ch cs

/-- Index of the first list element equal to `a` (Python `list.index`,
returning `none` instead of raising). -/
def idxOf? (l : List String) (a : String) : Option Nat :=
  match l with
  | [] => none
  | x :: xs => if x = a then some 0 else (idxOf? xs a).map (· + 1)

/-- Python `list.index(a, start)` made total: absolute index of the first
occurrence at or after `start`. -/
def idxOfFrom? (l : List String) (a : String) (start : Nat) : Option Nat :=
  (idxOf? (l.drop start) a).map (· + start)

/-- Python slice `l[i:j]`. -/
def sliceList (l : List String) (i j : Nat) : List String :=
  (l.take j).drop i

/-- Decimal value of a list of digit characters (Python `int` on a digit
string). -/
def digitsVal (ds : List Char) : Nat :=
  ds.foldl (fun n c => 10 * n + (c.toNat - 48)) 0

deriving instance DecidableEq for Except

/-- One row of the species table: common name (`Species` column) and
tool-internal name (`MGName` column). -/
structure Row where
  species : String
  mgname : String
deriving DecidableEq, Repr

/-- `DataFrame.drop_duplicates(subset="Species")`: keep the first row for
each species name. -/
def dedupBySpecies : List Row → List String → List Row
  | [], _ => []
  | r :: rs, seen =>
    if seen.contains r.species then dedupBySpecies rs seen
    else r :: dedupBySpecies rs (seen ++ [r.species])

/-- Body of the `extract_species` loop for one line: blank lines raise
`IndexError` on `line.split()[0]`, comment/continuation lines (first token
starting with `!` or `.`) are skipped, and a non-comment line without `!`
raises `IndexError` on `line.split("!")[1]`. -/
def parseSpeciesLine (line : String) : Except String (Option Row) :=
  match pySplitWsStr line with
  | [] => .error "IndexError: blank line in species section"
  | t :: _ =>
    if pyStartsWith t "!" || pyStartsWith t "." then .ok none
    else
      match (strSplitChar line '!').get? 1 with
      | none => .error "IndexError: species line without comment delimiter"
      | some p1 =>
        let mgname := ((strSplitChar ((strSplitChar line '!').headD "") ' ').headD "")
        let species := ((strSplitChar p1 ' ').getLastD "")
        .ok (some ⟨species, mgname⟩)

/-- Run `parseSpeciesLine` down a list of lines, collecting rows and
propagating the first exception. -/
def collectRows : List String → Except String (List Row)
  | [] => .ok []
  | l :: ls =>
    match parseSpeciesLine l with
    | .error e => .error e
    | .ok none => collectRows ls
    | .ok (some r) => (collectRows ls).map (fun rs => r :: rs)

/-- `SpeciesExtractor.extract_species`: the section start is
`lines.index(start) + 1`; the section end is `lines.index(end)`, searched
from the beginning of the file. -/
def extractSpecies (lines : List String) (sStart sEnd : String) :
    Except String (List Row) :=
  match idxOf? lines sStart with
  | none => .error "ValueError: start marker not found"
  | some si =>
    match idxOf? lines sEnd with
    | none => .error "ValueError: end marker not found"
    | some ei =>
      (collectRows (sliceList lines (si + 1) ei)).map
        (fun rows => dedupBySpecies rows [])

/-- Modelled from the spec's words, for comparison with `extractSpecies`
(refinement check for the section-scanning claim): the end marker is found
by scanning forward from the located start marker. -/
def extractSpeciesForward (lines : List String) (sStart sEnd : String) :
    Except String (List Row) :=
  match idxOf? lines sStart with
  | none => .error "ValueError: start marker not found"
  | some si =>
    match idxOfFrom? lines sEnd (si + 1) with
    | none => .error "ValueError: end marker not found"
    | some ei =>
      (collectRows (sliceList lines (si + 1) ei)).map
        (fun rows => dedupBySpecies rows [])

/-- `SpeciesExtractor.build_compounds`. -/
def buildCompounds (lines : List String) (defaults : List String) :
    Except String (List String × List String) :=
  match extractSpecies lines ".STS" ".RXN" with
  | .error e => .error e
  | .ok stsRows =>
    let compoundsSts := stsRows.map Row.mgname
    match extractSpecies lines ".ACT" ".RXN" with
    | .error e => .error e
    | .ok actRows =>
      let compoundsAct := (actRows.map Row.mgname).filter
        (fun c => !defaults.contains c && !compoundsSts.contains c)
      .ok ((defaults ++ compoundsAct ++ compoundsSts).map underscore,
           compoundsSts)

/-! ### Regular-expression model

`clean_null_compounds` builds the pattern `\b(?:c1|c2|...)\b` (alternation of
escaped literals) and collects `re.findall` matches; `handle_photolysis`
uses `re.search` with `PF=([^\s]+)` and `QY=([0-9\.eE\-]+)`.  The model
below reproduces the Python `re` semantics on these patterns: leftmost
match, alternatives tried in order, non-overlapping scan that advances past
each match (by one position on failure or an empty match), and `\b` as a
transition between word characters (`[A-Za-z0-9_]`, our inputs are ASCII)
and non-word characters or the string ends. -/

/-- Python `\w` on ASCII input. -/
def wordChar (c : Char) : Bool :=
  c.isAlpha || c.isDigit || c = '_'

/-- Wordness of the character at index `i`, out-of-range counting as
non-word. -/
def wordAt (text : List Char) (i : Nat) : Bool :=
  match text.get? i with
  | some c => wordChar c
  | none => false

/-- Python `\b` at position `i` of `text`. -/
def boundaryB (text : List Char) (i : Nat) : Bool :=
  (if i = 0 then false else wordAt text (i - 1)) != wordAt text i

/-- The pattern `\b<comp>\b` (with `comp` a literal) matches `text` at
position `p`. -/
def matchesAt (text comp : List Char) (p : Nat) : Bool :=
  comp.isPrefixOf (text.drop p) && boundaryB text p
    && boundaryB text (p + comp.length)

/-- First alternative of the alternation that matches at position `p`. -/
def firstMatchAt (comps : List (List Char)) (text : List Char) (p : Nat) :
    Option (List Char) :=
  comps.find? (fun c => matchesAt text c p)

/-- The `re.findall` scan: leftmost non-overlapping matches, advancing past
each match. -/
def scanFrom (comps : List (List Char)) (text : List Char) :
    Nat → Nat → List (List Char)
  | 0, _ => []
  | fuel + 1, p =>
    if text.length < p then []
    else
      match firstMatchAt comps text p with
      | none => scanFrom comps text fuel (p + 1)
      | some c =>
        c :: scanFrom comps text fuel (p + (if c.length = 0 then 1 else c.length))

/-- `re.findall(r"\b(?:c1|...|cn)\b", text)`. -/
def findAllMatches (comps : List (List Char)) (text : List Char) :
    List (List Char) :=
  scanFrom comps text (text.length + 2) 0

/-- `comp` has a whole-word occurrence (`\b comp \b`) somewhere in `text`. -/
def hasOccList (comp text : List Char) : Bool :=
  (List.range (text.length + 1)).any (fun p => matchesAt text comp p)

/-- Whole-word occurrence, on strings. -/
def hasOcc (comp text : String) : Bool :=
  hasOccList comp.toList text.toList

/-- Python `" ".join(l)`. -/
def joinSpace (l : List String) : String :=
  String.intercalate " " l

/-- `SpeciesExtractor.clean_null_compounds`. -/
def cleanNullCompounds (compoundList reactionList : List String) :
    List String × List String :=
  let combined := joinSpace reactionList
  let found := findAllMatches (compoundList.map String.toList) combined.toList
  (compoundList.filter (fun c => found.contains c.toList),
   compoundList.filter (fun c => !found.contains c.toList))

/-! ### Reaction parsing -/

/-- Loop body of `ReactionExtractor.parse_reactions`: strip each line,
remove `#`, start a new record at the `R)` marker, otherwise append the
line to the open record; flush the final open record. -/
def rxnFold : List String → String → List String
  | [], cur => if cur = "" then [] else [cur]
  | l :: ls, cur =>
    let l' := removeHash (pyTrim l)
    if pyStartsWith l' "R)" then
      if cur = "" then rxnFold ls l' else cur :: rxnFold ls l'
    else rxnFold ls (cur ++ " " ++ l')

/-- `ReactionExtractor.parse_reactions`: fatal when the `.RXN` marker is
absent; the end marker `.` is optional (end of file otherwise). -/
def parseReactions (lines : List String) : Except String (List String) :=
  match idxOf? lines ".RXN" with
  | none => .error "ValueError: .RXN marker not found"
  | some i =>
    let endIdx := (idxOfFrom? lines "." (i + 1)).getD lines.length
    .ok (rxnFold (sliceList lines (i + 1) endIdx) "")

/-! ### Rate translation -/

/-- Leftmost index at which `sub` occurs in `text` (Python `str.find`,
`none` for `-1`). -/
def firstSubIdx? (sub text : List Char) : Option Nat :=
  (List.range (text.length + 1)).find? (fun p => sub.isPrefixOf (text.drop p))

/-- Python `sub in text`. -/
def hasSub (sub text : List Char) : Bool :=
  (firstSubIdx? sub text).isSome

/-- `re.search(r"PF=([^\s]+)", v)`: capture of the leftmost occurrence of
`PF=` followed by a nonempty maximal run of non-whitespace characters. -/
def findPF (v : List Char) : Option (List Char) :=
  (List.range (v.length + 1)).findSome? (fun p =>
    if ("PF=".toList).isPrefixOf (v.drop p) then
      let name := (v.drop (p + 3)).takeWhile (fun c => !c.isWhitespace)
      if name.isEmpty then none else some name
    else none)

/-- Character class `[0-9\.eE\-]` of the quantum-yield pattern. -/
def qyChar (c : Char) : Bool :=
  c.isDigit || c = '.' || c = 'e' || c = 'E' || c = '-'

/-- `re.search(r"QY=([0-9\.eE\-]+)", v)`. -/
def findQY (v : List Char) : Option (List Char) :=
  (List.range (v.length + 1)).findSome? (fun p =>
    if ("QY=".toList).isPrefixOf (v.drop p) then
      let y := (v.drop (p + 3)).takeWhile qyChar
      if y.isEmpty then none else some y
    else none)

/-- Hyphen normalization followed by the fixed `C2CHOabs` alias rewrite. -/
def pfNormalize (raw : String) : String :=
  let n := underscore raw
  if n = "C2CHOabs" then "C2CHO" else n

/-- `ReactionExtractor.handle_photolysis`.  The accumulator is threaded
explicitly (the Python code mutates the `names_PF` list in place). -/
def handlePhotolysis (value : String) (names : List String) :
    String × List String :=
  if hasSub ("PF=".toList) value.toList then
    match findPF value.toList with
    | some rawName =>
      let name := pfNormalize (String.mk rawName)
      let names' := if names.contains name then names else names ++ [name]
      match findQY value.toList with
      | some y => (name ++ " * " ++ String.mk y, names')
      | none => (name, names')
    | none => (value, names)
  else (value, names)

/-- Sign parsing for `float()` literals. -/
def parseSign : List Char → Bool × List Char
  | c :: cs => if c = '-' then (false, cs) else if c = '+' then (true, cs) else (true, c :: cs)
  | [] => (true, [])

/-- Python `float(s)` on finite decimal/scientific literals, as an exact
rational (`inf`/`nan`/digit-group underscores are not modelled; no such
token occurs in mechanism data). -/
def parseFloat (s : String) : Option ℚ :=
  let cs := ((s.toList.dropWhile Char.isWhitespace).reverse.dropWhile
    Char.isWhitespace).reverse
  let (pos, cs) := parseSign cs
  let ip := cs.takeWhile Char.isDigit
  let rest := cs.dropWhile Char.isDigit
  let core : Option (ℚ × List Char) :=
    match rest with
    | '.' :: rest2 =>
      let fp := rest2.takeWhile Char.isDigit
      let rest3 := rest2.dropWhile Char.isDigit
      if ip.isEmpty && fp.isEmpty then none
      else some ((digitsVal ip : ℚ) + (digitsVal fp : ℚ) / 10 ^ fp.length, rest3)
    | _ => if ip.isEmpty then none else some ((digitsVal ip : ℚ), rest)
  match core with
  | none => none
  | some (mant, rest) =>
    let signed := if pos then mant else -mant
    match rest with
    | [] => some signed
    | e :: rest2 =>
      if e = 'e' || e = 'E' then
        let (epos, rest3) := parseSign rest2
        let ed := rest3.takeWhile Char.isDigit
        let rest4 := rest3.dropWhile Char.isDigit
        if ed.isEmpty || !rest4.isEmpty then none
        else some (signed * (if epos then (10 : ℚ) ^ digitsVal ed
                             else ((10 : ℚ) ^ digitsVal ed)⁻¹))
      else none

/-- Left-pad a numeral with zeros to the given width. -/
def padZeros (width : Nat) (s : String) : String :=
  String.mk (List.replicate (width - s.length) '0') ++ s

/-- Python `f"{x:.4f}"`: fixed-point rendering with four decimal digits,
ties to even (our values never sit on a rounding boundary). -/
def fmt4 (q : ℚ) : String :=
  let scaled := q * 10000
  let n0 : ℤ := ⌊scaled⌋
  let r := scaled - n0
  let n := if r < 1 / 2 then n0
           else if 1 / 2 < r then n0 + 1
           else if n0 % 2 = 0 then n0 else n0 + 1
  let sign := if n < 0 then "-" else ""
  let m := n.natAbs
  sign ++ toString (m / 10000) ++ "." ++ padZeros 4 (toString (m % 10000))

/-- CPython `repr` of a float holding an exact short decimal: shortest
digit string, fixed notation for decimal exponents in `[-4, 16)`,
scientific notation (`d.dde±XX`, two-digit exponent minimum) outside. -/
def pyFloatRepr (q : ℚ) : String :=
  if q = 0 then "0.0" else
  let sign := if q < 0 then "-" else ""
  let a := |q|
  match (List.range 400).find? (fun k => (a * 10 ^ k).den = 1) with
  | none => "<nondecimal>"
  | some k =>
    let m := (a * 10 ^ k).num.natAbs
    let ds := (toString m).toList
    let ds' := (ds.reverse.dropWhile (· = '0')).reverse
    let z := ds.length - ds'.length
    let kk : ℤ := (k : ℤ) - z
    let nd := ds'.length
    let e : ℤ := (nd - 1 : ℤ) - kk
    if -4 ≤ e && e < 16 then
      if kk ≤ 0 then
        sign ++ String.mk ds' ++ String.mk (List.replicate kk.natAbs '0') ++ ".0"
      else if kk < nd then
        sign ++ String.mk (ds'.take (nd - kk.toNat)) ++ "."
          ++ String.mk (ds'.drop (nd - kk.toNat))
      else
        sign ++ "0." ++ String.mk (List.replicate (kk.toNat - nd) '0')
          ++ String.mk ds'
    else
      let mant := match ds' with
        | [] => "0"
        | d :: [] => String.singleton d
        | d :: restd => String.singleton d ++ "." ++ String.mk restd
      let estr := if e.natAbs < 10 then "0" ++ toString e.natAbs
                  else toString e.natAbs
      sign ++ mant ++ "e" ++ (if e < 0 then "-" else "+") ++ estr

/-- The gas constant literal `R = -0.001987204258640` of `format_rate`. -/
def Rconst : ℚ := -(1987204258640 : ℚ) / 10 ^ 15

/-- `ReactionExtractor.format_rate`. -/
def formatRate (rateStr : String) (names : List String) :
    String × List String :=
  let hp := handlePhotolysis rateStr names
  let cleaned := hp.1
  let names' := hp.2
  if cleaned ≠ rateStr then ("J" ++ cleaned, names')
  else
    let parts := pySplitWsStr cleaned
    if parts.length = 3 then
      match parseFloat (parts.headD ""), parseFloat (parts.getD 1 "") with
      | some A, some E0 =>
        (pyFloatRepr A ++ " .* exp(" ++ fmt4 (E0 / Rconst)
          ++ "./T) .* (T./300).^" ++ parts.getD 2 "", names')
      | _, _ => (rateStr, names')
    else if parts.length = 2 then
      match parseFloat (parts.headD ""), parseFloat (parts.getD 1 "") with
      | some A, some E0 =>
        (pyFloatRepr A ++ " .* exp(" ++ fmt4 (E0 / Rconst) ++ "./T)", names')
      | _, _ => (rateStr, names')
    else (rateStr, names')

/-! ### Reaction compilation (`format_for_f0am`) -/

/-- The inputs of `ReactionExtractor.format_for_f0am` other than the record
list.  A `radicalCutoff` of `0` is the disabled state (the Python default
is `False`, and `if radical_cutoff:` is falsy for both `False` and `0`). -/
structure Config where
  gen : String
  precursor : String
  compounds : List String
  paraSoa : Bool := false
  radicalCutoff : Nat := 0
  reference : Option (List String) := none

/-- The radical-pool species label:
`f"{precursor}r" if gen == "Single" else "RAD"`. -/
def radicalStart (cfg : Config) : String :=
  if cfg.gen = "Single" then cfg.precursor ++ "r" else "RAD"

/-- `int("".join(filter(str.isdigit, label.split("_")[-1])))`: the decimal
value of the digit characters of the label's last underscore-delimited
segment; `none` models the `ValueError` of `int("")`. -/
def genNumber (label : String) : Option Nat :=
  let seg := (strSplitChar label '_').getLastD ""
  let ds := seg.toList.filter Char.isDigit
  if ds.isEmpty then none else some (digitsVal ds)

/-- `reaction.split(";")`. -/
def recParts (r : String) : List String :=
  strSplitChar r ';'

/-- `parts[0].strip()`: the rate clause. -/
def recInfo (r : String) : String :=
  pyTrim ((recParts r).headD "")

/-- `parts[1].strip().replace("-", "_")`: the equation clause. -/
def recEqn (r : String) : String :=
  underscore (pyTrim ((recParts r).getD 1 ""))

/-- `reaction_eqn.split("=")[0].strip()`: the reactant-side fragment. -/
def recReactantPart (r : String) : String :=
  pyTrim ((strSplitChar (recEqn r) '=').headD "")

/-- `reactant_part.split(" ")[0]`: the first reactant species label. -/
def recSpeciesLabel (r : String) : String :=
  ((strSplitChar (recReactantPart r) ' ').headD "")

/-- `reaction_info[reaction_info.find("R)") + 2:].strip()`: the raw rate
text (after a failed `find`, Python uses `-1 + 2 = 1`). -/
def rawRateOf (info : String) : String :=
  let k := match firstSubIdx? ("R)".toList) info.toList with
    | some n => n + 2
    | none => 1
  pyTrim (String.mk (info.toList.drop k))

/-- `f"%   {i}, <R{i:03}>"`. -/
def mkHeader (i : Nat) : String :=
  "%   " ++ toString i ++ ", <R" ++ padZeros 3 (toString i) ++ ">"

/-- One emitted reaction block, with the fields the source interpolates
into its MATLAB text, plus the running `ro2_count` value. -/
structure Block where
  idx : Nat
  header : String
  rnames : String
  rateLine : String
  gstr : String
  reactants : List String
  flines : List String
  ro2Count : ℚ
deriving DecidableEq, Repr

/-- The joined `Gstr` declarations: non-photon reactants keep the index
they have under `enumerate(reactants, start=1)` (a leading `HV` still
advances the counter). -/
def gstrOf (reactants : List String) : String :=
  String.join ((reactants.enum).filterMap (fun p =>
    if p.2 = "HV" then none
    else some ("Gstr\x7bi," ++ toString (p.1 + 1) ++ "\x7d = \x27"
      ++ p.2 ++ "\x27; ")))

/-- Reactant-side stoichiometry lines: every non-photon reactant gets its
own decrement line, and every radical-prefixed one additionally gets an
`fRO2` decrement line. -/
def reactantFLines (radStart : String) : List String → List String
  | [] => []
  | r :: rs =>
    (if r = "HV" then []
     else ("f" ++ r ++ "(i) = f" ++ r ++ "(i) - 1;")
       :: (if pyStartsWith r radStart then ["fRO2(i) = fRO2(i) - 1;"] else []))
    ++ reactantFLines radStart rs

/-- Parse one product entry into `(yield, species)`: a first token that is
digits with at most one embedded dot is a numeric yield (default `1.0`). -/
def parseProductEntry (entry : String) : ℚ × String :=
  let ps := pySplitWsStr entry
  let tok := ps.headD ""
  let stripped := String.mk (removeFirstChar '.' tok.toList)
  if ps.length > 1 && (stripped ≠ "" && stripped.toList.all Char.isDigit) then
    ((parseFloat tok).getD 0, underscore (joinSpace ps.tail))
  else (1, underscore entry)

/-- Product-side stoichiometry lines and the radical-pool yield sum
`ro2_count`: empty entries contribute nothing, `VBS`-prefixed species are
excluded from the balance lines unless `paraSoa` is set, radical-prefixed
species add their yield to the pool counter. -/
def productFLines (paraSoa : Bool) (radStart : String) :
    List String → List String × ℚ
  | [] => ([], 0)
  | e :: es =>
    let yp := parseProductEntry e
    let pr := productFLines paraSoa radStart es
    if pyTrim yp.2 ≠ "" then
      ((if paraSoa || !pyStartsWith yp.2 "VBS" then
          ["f" ++ yp.2 ++ "(i) = f" ++ yp.2 ++ "(i) + "
            ++ pyFloatRepr yp.1 ++ ";"]
        else []) ++ pr.1,
       (if pyStartsWith yp.2 radStart then yp.1 else 0) + pr.2)
    else pr

/-- The emitting tail of the `format_for_f0am` loop body, reached once all
soft filters have passed: formats the rate, unpacks the equation (raising
when it does not split into exactly two parts on `=`), and assembles the
block. -/
def compileRest (cfg : Config) (i : Nat) (names : List String)
    (info eqn : String) : Except String (Option Block × List String) :=
  let fr := formatRate (rawRateOf info) names
  let eqSplit := strSplitChar eqn '='
  if eqSplit.length = 2 then
    let reactants := (strSplitChar (eqSplit.headD "") '+').map
      (fun r => underscore (pyTrim r))
    let entries := (strSplitChar (eqSplit.getD 1 "") '+').map pyTrim
    let rLines := reactantFLines (radicalStart cfg) reactants
    let pr := productFLines cfg.paraSoa (radicalStart cfg) entries
    let flines := rLines ++ pr.1
      ++ (if 0 < pr.2 then
            ["fRO2(i) = fRO2(i) + " ++ pyFloatRepr pr.2 ++ ";"]
          else [])
    .ok (some ⟨i, mkHeader i,
      "Rnames\x7bi\x7d = \x27" ++ underscore eqn ++ "\x27;",
      "k(:,i) = " ++ fr.1 ++ ";",
      gstrOf reactants, reactants, flines, pr.2⟩, fr.2)
  else .error "ValueError: equation does not unpack into two parts"

/-- One iteration of the `format_for_f0am` loop: apply the soft filters in
source order (missing `;` delimiter, reference-set membership, undefined
first species, radical generation over the cutoff), then emit. -/
def compileStep (cfg : Config) (i : Nat) (names : List String)
    (reaction : String) : Except String (Option Block × List String) :=
  if (recParts reaction).length < 2 then .ok (none, names)
  else if (match cfg.reference with
           | some refs => refs.contains (recReactantPart reaction)
           | none => false) then .ok (none, names)
  else if !cfg.compounds.contains (recSpeciesLabel reaction) then
    .ok (none, names)
  else if cfg.radicalCutoff ≠ 0
      && pyStartsWith (recReactantPart reaction) (radicalStart cfg) then
    match genNumber (recSpeciesLabel reaction) with
    | none => .error "ValueError: int() argument has no digits"
    | some n =>
      if cfg.radicalCutoff < n then .ok (none, names)
      else compileRest cfg i names (recInfo reaction) (recEqn reaction)
  else compileRest cfg i names (recInfo reaction) (recEqn reaction)

/-- The `format_for_f0am` loop: a dense 1-based index over emitted blocks,
the photolysis accumulator threaded through every `format_rate` call. -/
def formatForF0amAux (cfg : Config) :
    List String → Nat → List String → Except String (List Block × List String)
  | [], _, names => .ok ([], names)
  | r :: rs, i, names =>
    match compileStep cfg i names r with
    | .error e => .error e
    | .ok (none, names') => formatForF0amAux cfg rs i names'
    | .ok (some b, names') =>
      match formatForF0amAux cfg rs (i + 1) names' with
      | .error e => .error e
      | .ok (bs, ns) => .ok (b :: bs, ns)

/-- `ReactionExtractor.format_for_f0am` (returning the emitted blocks and
the photolysis-product names). -/
def formatForF0am (cfg : Config) (reactions : List String) :
    Except String (List Block × List String) :=
  formatForF0amAux cfg reactions 1 []

/-! ### Derived notions used to state the claims -/

/-- The normalized photolysis name that a rate fragment would register, if
its `PF=` pattern matches. -/
def extractedName (v : String) : Option String :=
  (findPF v.toList).map (fun r => pfNormalize (String.mk r))

/-- Append-if-absent accumulation of a list of names onto `acc`. -/
def firstSeenFrom (acc : List String) : List String → List String
  | [] => acc
  | n :: ns => firstSeenFrom (if acc.contains n then acc else acc ++ [n]) ns

/-- The distinct names of a list in first-seen order. -/
def firstSeen (l : List String) : List String :=
  firstSeenFrom [] l

/-- Thread a list of rate fragments through `handlePhotolysis`, keeping
only the accumulator. -/
def processValues : List String → List String → List String
  | [], names => names
  | v :: vs, names => processValues vs (handlePhotolysis v names).2

/-- The radical-pool decrement line text. -/
def ro2MinusLine : String := "fRO2(i) = fRO2(i) - 1;"

/-- The radical-pool increment line for a given pool sum. -/
def ro2PlusLine (q : ℚ) : String :=
  "fRO2(i) = fRO2(i) + " ++ pyFloatRepr q ++ ";"

/-- Net radical-pool delta of an emitted block: the product-side pool sum
minus one per emitted pool decrement line. -/
def blockNetRO2 (b : Block) : ℚ :=
  b.ro2Count - b.flines.count ro2MinusLine

/-- The first emitted block of a compilation result, when any. -/
def firstBlock? (res : Except String (List Block × List String)) :
    Option Block :=
  match res with
  | .ok (b :: _, _) => some b
  | _ => none

/-- A string made only of word characters. -/
def wordOnly (s : String) : Bool :=
  s.toList.all wordChar

/-- A blank or whitespace-only line. -/
def isWsOnly (l : String) : Bool :=
  l.toList.all Char.isWhitespace

/-- Membership of a character in a string. -/
def containsChar (s : String) (c : Char) : Bool :=
  s.toList.contains c

/-- A species-section comment/continuation line: first whitespace token
starts with `!` or `.`. -/
def isCommentLine (l : String) : Bool :=
  match pySplitWsStr l with
  | t :: _ => pyStartsWith t "!" || pyStartsWith t "."
  | [] => false

/-- The species-section lines as `extract_species` slices them. -/
def sectionLines (lines : List String) (sStart sEnd : String) : List String :=
  match idxOf? lines sStart, idxOf? lines sEnd with
  | some si, some ei => sliceList lines (si + 1) ei
  | _, _ => []


/-- A multi-generation configuration with the single compound `A`,
used to exercise concrete runs. -/
def cfgA : Config :=
  { gen := "Multi", precursor := "X", compounds := ["A"] }

/-- The configuration of the spec's radical-cutoff example, with the
underscore-suffixed labels the spec uses. -/
def cfgIsoX : Config :=
  { gen := "Single", precursor := "ISOPRENE",
    compounds := ["ISOPRENEr3_x", "ISOPRENEr2_x"], radicalCutoff := 2 }

/-- The radical-cutoff example over labels whose last segment carries the
generation digit. -/
def cfgIso : Config :=
  { gen := "Single", precursor := "ISOPRENE",
    compounds := ["ISOPRENEr3", "ISOPRENEr2", "A"], radicalCutoff := 2 }

/-- A single-generation configuration whose precursor `P` makes `Pr1` a
radical-pool species. -/
def cfgP : Config :=
  { gen := "Single", precursor := "P", compounds := ["Pr1"] }

/-- A configuration carrying a reference reaction set that contains the
reactant side `A`. -/
def cfgR : Config :=
  { gen := "Multi", precursor := "X", compounds := ["A"],
    reference := some ["A"] }

/-- The reactant lists of the emitted blocks of a compilation result. -/
def blocksReactants (res : Except String (List Block × List String)) :
    Option (List (List String)) :=
  match res with
  | .ok (bs, _) => some (bs.map Block.reactants)
  | _ => none

/-- The block emitted for `R) 1.0 200 ; A = B` at index 1. -/
def c1Block : Block :=
  { idx := 1, header := "%   1, <R001>",
    rnames := "Rnames\x7bi\x7d = \x27A = B\x27;",
    rateLine := "k(:,i) = 1.0 .* exp(-100643.9067./T);",
    gstr := "Gstr\x7bi,1\x7d = \x27A\x27; ",
    reactants := ["A"],
    flines := ["fA(i) = fA(i) - 1;", "fB(i) = fB(i) + 1.0;"],
    ro2Count := 0 }

/-- The product entries of an equation clause, as `compileRest` derives
them. -/
def prodEntriesOf (eqn : String) : List String :=
  (strSplitChar ((strSplitChar eqn '=').getD 1 "") '+').map pyTrim

/-- The block emitted for the radical-reactant record
`R) 1.0 2.0 ; Pr1 = A` under `cfgP`. -/
def c9Block : Block :=
  { idx := 1, header := "%   1, <R001>",
    rnames := "Rnames\x7bi\x7d = \x27Pr1 = A\x27;",
    rateLine := "k(:,i) = 1.0 .* exp(-1006.4391./T);",
    gstr := "Gstr\x7bi,1\x7d = \x27Pr1\x27; ",
    reactants := ["Pr1"],
    flines := ["fPr1(i) = fPr1(i) - 1;", "fRO2(i) = fRO2(i) - 1;",
      "fA(i) = fA(i) + 1.0;"],
    ro2Count := 0 }

/-! ## Helper lemmas -/

section
attribute [local semireducible] Rat.add Rat.mul Rat.inv Rat.sub

theorem toList_eq_nil_iff (s : String) : s.toList = [] ↔ s = "" := by
  cases s with
  | mk data =>
    constructor
    · intro h
      have hd : data = [] := h
      rw [hd]
    · intro h
      have hd : String.mk data = String.mk [] := h
      injection hd

theorem splitWsAux_nil_of_ws (cs : List Char)
    (h : ∀ c ∈ cs, c.isWhitespace) : splitWsAux cs [] = [] := by
  induction cs with
  | nil => rfl
  | cons c cs ih =>
    have hc : c.isWhitespace := h c (List.mem_cons_self c cs)
    simp only [splitWsAux, hc, if_true, List.isEmpty_nil]
    exact ih (fun x hx => h x (List.mem_cons_of_mem c hx))

theorem pySplitWs_nil_of_wsOnly (l : String) (h : isWsOnly l = true) :
    pySplitWsStr l = [] := by
  unfold pySplitWsStr
  rw [splitWsAux_nil_of_ws l.toList (fun c hc => List.all_eq_true.mp h c hc)]
  rfl

theorem splitChar_no_sep (sep : Char) (cs : List Char)
    (h : ∀ c ∈ cs, c ≠ sep) : splitChar sep cs = [cs] := by
  induction cs with
  | nil => rfl
  | cons c cs ih =>
    have step : splitChar sep (c :: cs) =
        (match splitChar sep cs with
         | [] => [[c]]
         | h :: t => if c = sep then [] :: h :: t else (c :: h) :: t) := rfl
    rw [step, ih (fun x hx => h x (List.mem_cons_of_mem c hx))]
    simp [h c (List.mem_cons_self c cs)]

theorem parseSpeciesLine_error_of_bad (l : String)
    (h : isWsOnly l = true ∨
      (isCommentLine l = false ∧ containsChar l '!' = false)) :
    ∃ msg, parseSpeciesLine l = .error msg := by
  rcases h with hws | ⟨hcom, hbang⟩
  · refine ⟨"IndexError: blank line in species section", ?_⟩
    unfold parseSpeciesLine
    rw [pySplitWs_nil_of_wsOnly l hws]
  · unfold parseSpeciesLine
    unfold isCommentLine at hcom
    rcases hsp : pySplitWsStr l with _ | ⟨t, rest⟩
    · exact ⟨_, rfl⟩
    · rw [hsp] at hcom
      simp only at hcom
      have hcom' : ¬ ((pyStartsWith t "!" || pyStartsWith t ".") = true) := by
        rw [hcom]
        simp
      simp only [if_neg hcom']
      have hns : strSplitChar l '!' = [String.mk l.toList] := by
        unfold strSplitChar
        rw [splitChar_no_sep '!' l.toList ?_]
        · rfl
        · intro c hc heq
          unfold containsChar at hbang
          rw [← heq] at hbang
          rw [List.contains_eq_any_beq] at hbang
          have : l.toList.any (fun x => c == x) = true :=
            List.any_eq_true.mpr ⟨c, hc, by simp⟩
          rw [this] at hbang
          cases hbang
      rw [hns]
      exact ⟨_, rfl⟩

theorem collectRows_error_of_bad (ls : List String) (l : String)
    (hmem : l ∈ ls)
    (h : isWsOnly l = true ∨
      (isCommentLine l = false ∧ containsChar l '!' = false)) :
    ∃ msg, collectRows ls = .error msg := by
  induction ls with
  | nil => cases hmem
  | cons a t ih =>
    rcases List.mem_cons.mp hmem with rfl | htail
    · obtain ⟨msg, hmsg⟩ := parseSpeciesLine_error_of_bad l h
      exact ⟨msg, by simp [collectRows, hmsg]⟩
    · rcases ha : parseSpeciesLine a with e | o
      · exact ⟨e, by simp [collectRows, ha]⟩
      · obtain ⟨msg, hmsg⟩ := ih htail
        rcases o with _ | r
        · exact ⟨msg, by simp [collectRows, ha, hmsg]⟩
        · refine ⟨msg, ?_⟩
          simp only [collectRows, ha, hmsg]
          rfl

/-! ## C10 -/

/-- C10: `extract_species` is total only on well-formed sections: any line
strictly between the located start and end markers that is blank or
whitespace-only, or that is a non-comment line containing no `!`, makes
`extract_species` raise (the line is not skipped). -/
theorem extractSpecies_raises_on_malformed_section
    (lines : List String) (sStart sEnd l : String)
    (hmem : l ∈ sectionLines lines sStart sEnd)
    (hbad : isWsOnly l = true ∨
      (isCommentLine l = false ∧ containsChar l '!' = false)) :
    ∃ msg, extractSpecies lines sStart sEnd = .error msg := by
  unfold extractSpecies
  rcases hs : idxOf? lines sStart with _ | si
  · exact ⟨_, rfl⟩
  · rcases he : idxOf? lines sEnd with _ | ei
    · exact ⟨_, rfl⟩
    · unfold sectionLines at hmem
      rw [hs, he] at hmem
      obtain ⟨msg, hmsg⟩ :=
        collectRows_error_of_bad (sliceList lines (si + 1) ei) l hmem hbad
      refine ⟨msg, ?_⟩
      show Except.map (fun rows => dedupBySpecies rows [])
        (collectRows (sliceList lines (si + 1) ei)) = Except.error msg
      rw [hmsg]
      rfl

/-- C10 witness: a whitespace-only line and a delimiterless data line each
abort the extraction on a concrete file. -/
theorem extractSpecies_raises_on_malformed_section_witness :
    (∃ msg, extractSpecies [".STS", "  ", ".RXN"] ".STS" ".RXN" = .error msg)
    ∧ (∃ msg, extractSpecies [".STS", "a b c", ".RXN"] ".STS" ".RXN"
        = .error msg) :=
  ⟨extractSpecies_raises_on_malformed_section
      [".STS", "  ", ".RXN"] ".STS" ".RXN" "  " (by decide)
      (Or.inl (by decide)),
   extractSpecies_raises_on_malformed_section
      [".STS", "a b c", ".RXN"] ".STS" ".RXN" "a b c" (by decide)
      (Or.inr (by decide))⟩

/-! ## C6 -/

/-- C6: whenever both section extractions succeed, `build_compounds`
returns exactly `defaults ++ (active − defaults − steadyState) ++
steadyState`, every name hyphen-normalized, with active entries already in
the defaults or the steady-state set excluded from the middle partition. -/
theorem buildCompounds_partition (lines defaults : List String)
    (stsRows actRows : List Row)
    (hs : extractSpecies lines ".STS" ".RXN" = .ok stsRows)
    (ha : extractSpecies lines ".ACT" ".RXN" = .ok actRows) :
    buildCompounds lines defaults =
      .ok (defaults.map underscore
        ++ ((actRows.map Row.mgname).filter
              (fun c => !defaults.contains c
                && !(stsRows.map Row.mgname).contains c)).map underscore
        ++ (stsRows.map Row.mgname).map underscore,
        stsRows.map Row.mgname) := by
  unfold buildCompounds
  rw [hs, ha]
  simp [List.map_append]

/-- C6 witness: a concrete file with one steady-state and three active
entries, one shadowed by the defaults and one by the steady-state set. -/
theorem buildCompounds_partition_witness :
    buildCompounds [".ACT", "a1 ! A1", "s-2 ! HYP", ".STS", "s1 ! S1", ".RXN"]
      ["a1"] = .ok (["a1", "s_2", "s1"], ["s1"]) :=
  (buildCompounds_partition
      [".ACT", "a1 ! A1", "s-2 ! HYP", ".STS", "s1 ! S1", ".RXN"] ["a1"]
      [⟨"S1", "s1"⟩] [⟨"A1", "a1"⟩, ⟨"HYP", "s-2"⟩, ⟨"S1", "s1"⟩]
      (by decide) (by decide)).trans (by decide)

/-! ## C1 -/

theorem compileRest_emit {cfg : Config} {i : Nat} {names : List String}
    {info eqn : String} {b : Block} {ns : List String}
    (h : compileRest cfg i names info eqn = .ok (some b, ns)) :
    b.idx = i ∧ b.header = mkHeader i := by
  unfold compileRest at h
  dsimp only at h
  by_cases hlen : (strSplitChar eqn '=').length = 2
  · rw [if_pos hlen] at h
    simp only [Except.ok.injEq, Prod.mk.injEq, Option.some.injEq] at h
    obtain ⟨hb, -⟩ := h
    exact ⟨by rw [← hb], by rw [← hb]⟩
  · rw [if_neg hlen] at h
    cases h

theorem compileStep_emit {cfg : Config} {i : Nat} {names : List String}
    {r : String} {b : Block} {ns : List String}
    (h : compileStep cfg i names r = .ok (some b, ns)) :
    b.idx = i ∧ b.header = mkHeader i := by
  unfold compileStep at h
  split at h
  · simp at h
  · split at h
    · simp at h
    · split at h
      · simp at h
      · split at h
        · split at h
          · cases h
          · split at h
            · simp at h
            · exact compileRest_emit h
        · exact compileRest_emit h

theorem formatForF0amAux_dense (cfg : Config) (rs : List String) :
    ∀ (i : Nat) (names : List String) (blocks : List Block)
      (ns : List String),
      formatForF0amAux cfg rs i names = .ok (blocks, ns) →
      ∀ k (hk : k < blocks.length),
        (blocks.get ⟨k, hk⟩).idx = i + k
        ∧ (blocks.get ⟨k, hk⟩).header = mkHeader (i + k) := by
  induction rs with
  | nil =>
    intro i names blocks ns h k hk
    unfold formatForF0amAux at h
    simp only [Except.ok.injEq, Prod.mk.injEq] at h
    obtain ⟨hb, -⟩ := h
    rw [← hb] at hk
    exact absurd hk (by simp)
  | cons r rs ih =>
    intro i names blocks ns h k hk
    unfold formatForF0amAux at h
    rcases hstep : compileStep cfg i names r with e | ⟨ob, names'⟩
    · rw [hstep] at h
      dsimp only at h
      cases h
    · rw [hstep] at h
      rcases ob with _ | b
      · dsimp only at h
        exact ih i names' blocks ns h k hk
      · dsimp only at h
        rcases hrec : formatForF0amAux cfg rs (i + 1) names' with e2 | ⟨bs, ns2⟩
        · rw [hrec] at h
          dsimp only at h
          cases h
        · rw [hrec] at h
          dsimp only at h
          simp only [Except.ok.injEq, Prod.mk.injEq] at h
          obtain ⟨hb, -⟩ := h
          subst hb
          cases k with
          | zero =>
            have := compileStep_emit hstep
            simpa using this
          | succ k =>
            have hk' : k < bs.length := by
              simpa using hk
            have := ih (i + 1) names' bs ns2 hrec k hk'
            have harith : i + 1 + k = i + (k + 1) := by omega
            rw [harith] at this
            simpa using this

/-- C1: the emitted reaction blocks are indexed sequentially and densely
from 1: whenever `format_for_f0am` completes, the k-th emitted block (0
based) has index `k + 1` and carries that index in its header, so records
skipped by any soft filter (including those lacking the `;` delimiter)
leave no gap. -/
theorem formatForF0am_dense_indexing (cfg : Config) (reactions : List String)
    (blocks : List Block) (ns : List String)
    (h : formatForF0am cfg reactions = .ok (blocks, ns)) :
    ∀ k (hk : k < blocks.length),
      (blocks.get ⟨k, hk⟩).idx = k + 1
      ∧ (blocks.get ⟨k, hk⟩).header = mkHeader (k + 1) := by
  intro k hk
  have := formatForF0amAux_dense cfg reactions 1 [] blocks ns h k hk
  rwa [Nat.add_comm 1 k] at this

/-- C1 witness: a run in which a malformed record sits between two valid
ones; both emitted blocks exist, the first carrying index 1 in its header,
with no gap from the skipped record. -/
theorem formatForF0am_dense_indexing_witness :
    formatForF0am cfgA ["no delimiter", "R) 1.0 200 ; A = B"]
      = .ok ([c1Block], [])
    ∧ c1Block.idx = 0 + 1 ∧ c1Block.header = mkHeader (0 + 1) :=
  ⟨by decide,
   (formatForF0am_dense_indexing cfgA ["no delimiter", "R) 1.0 200 ; A = B"]
      [c1Block] [] (by decide) 0 (by decide)).1,
   (formatForF0am_dense_indexing cfgA ["no delimiter", "R) 1.0 200 ; A = B"]
      [c1Block] [] (by decide) 0 (by decide)).2⟩

/-! ## C3 -/

theorem findPF_some_hasSub (v : List Char) (raw : List Char)
    (h : findPF v = some raw) : hasSub ("PF=".toList) v = true := by
  unfold findPF at h
  obtain ⟨p, hp, hf⟩ := List.exists_of_findSome?_eq_some h
  by_cases hpre : ("PF=".toList).isPrefixOf (v.drop p) = true
  · unfold hasSub firstSubIdx?
    rw [Option.isSome_iff_exists]
    have : ∃ q ∈ List.range (v.length + 1),
        (fun q => ("PF=".toList).isPrefixOf (v.drop q)) q = true :=
      ⟨p, hp, hpre⟩
    obtain ⟨c, hc⟩ := Option.isSome_iff_exists.mp (List.find?_isSome.mpr this)
    exact ⟨c, hc⟩
  · rw [if_neg hpre] at hf
    cases hf

theorem findPF_none_of_no_pf (v : List Char)
    (h : hasSub ("PF=".toList) v = false) : findPF v = none := by
  rcases hf : findPF v with _ | raw
  · rfl
  · rw [findPF_some_hasSub v raw hf] at h
    cases h

theorem handlePhotolysis_no_pf (v : String) (names : List String)
    (h : hasSub ("PF=".toList) v.toList = false) :
    handlePhotolysis v names = (v, names) := by
  unfold handlePhotolysis
  rw [h]
  simp

/-- C3 counterexample: on the 2-token Arrhenius input `1.5E-12 -1.0` the
code renders the activation term as `503.2195`, not the `503.2332` the
claim states. -/
theorem formatRate_activation_counterexample :
    formatRate "1.5E-12 -1.0" [] = ("1.5e-12 .* exp(503.2195./T)", [])
    ∧ ("1.5e-12 .* exp(503.2195./T)" : String)
      ≠ "1.5e-12 .* exp(503.2332./T)" := by
  constructor
  · decide
  · decide

/-- C3 (amended): a 2-token Arrhenius fragment `A E` renders as
`repr(A) .* exp(E/R./T)` with `R = -0.001987204258640` and the scaled
activation term printed with 4 decimal digits; a 3-token fragment appends
` .* (T./300).^B` with `B` kept literal and 300 the fixed reference
temperature; in particular `1.5E-12 -1.0` yields exactly
`1.5e-12 .* exp(503.2195./T)`. -/
theorem formatRate_arrhenius :
    (∀ (s : String) (names : List String) (t0 t1 : String) (A E0 : ℚ),
      hasSub ("PF=".toList) s.toList = false →
      pySplitWsStr s = [t0, t1] →
      parseFloat t0 = some A → parseFloat t1 = some E0 →
      formatRate s names =
        (pyFloatRepr A ++ " .* exp(" ++ fmt4 (E0 / Rconst) ++ "./T)", names))
    ∧ (∀ (s : String) (names : List String) (t0 t1 t2 : String) (A E0 : ℚ),
      hasSub ("PF=".toList) s.toList = false →
      pySplitWsStr s = [t0, t1, t2] →
      parseFloat t0 = some A → parseFloat t1 = some E0 →
      formatRate s names =
        (pyFloatRepr A ++ " .* exp(" ++ fmt4 (E0 / Rconst)
          ++ "./T) .* (T./300).^" ++ t2, names))
    ∧ formatRate "1.5E-12 -1.0" [] = ("1.5e-12 .* exp(503.2195./T)", [])
    ∧ formatRate "1.5E-12 -1.0 2" []
        = ("1.5e-12 .* exp(503.2195./T) .* (T./300).^2", []) := by
  refine ⟨?_, ?_, by decide, by decide⟩
  · intro s names t0 t1 A E0 hpf hsplit hA hE
    unfold formatRate
    rw [handlePhotolysis_no_pf s names hpf]
    dsimp only
    rw [if_neg (by simp)]
    rw [hsplit]
    dsimp only [List.length]
    rw [if_neg (by omega), if_pos rfl]
    dsimp only [List.headD, List.getD, List.get?, Option.getD]
    rw [hA, hE]
  · intro s names t0 t1 t2 A E0 hpf hsplit hA hE
    unfold formatRate
    rw [handlePhotolysis_no_pf s names hpf]
    dsimp only
    rw [if_neg (by simp)]
    rw [hsplit]
    dsimp only [List.length]
    rw [if_pos rfl]
    dsimp only [List.headD, List.getD, List.get?, Option.getD]
    rw [hA, hE]

/-- C3 witness: the amended general clauses applied to the concrete 2- and
3-token inputs. -/
theorem formatRate_arrhenius_witness :
    formatRate "2.0 200" [] = (pyFloatRepr 2 ++ " .* exp("
      ++ fmt4 (200 / Rconst) ++ "./T)", [])
    ∧ formatRate "2.0 200 -3" [] = (pyFloatRepr 2 ++ " .* exp("
      ++ fmt4 (200 / Rconst) ++ "./T) .* (T./300).^-3", []) :=
  ⟨formatRate_arrhenius.1 "2.0 200" [] "2.0" "200" 2 200
      (by decide) (by decide) (by decide) (by decide),
   formatRate_arrhenius.2.1 "2.0 200 -3" [] "2.0" "200" "-3" 2 200
      (by decide) (by decide) (by decide) (by decide)⟩

/-! ## C4 -/

theorem handlePhotolysis_snd (v : String) (names : List String) :
    (handlePhotolysis v names).2 =
      (match extractedName v with
       | some n => if names.contains n then names else names ++ [n]
       | none => names) := by
  by_cases hs : hasSub ("PF=".toList) v.toList = true
  · unfold handlePhotolysis extractedName
    rw [hs]
    rcases hf : findPF v.toList with _ | raw
    · simp [hf]
    · rcases hq : findQY v.toList with _ | y <;> simp [hf, hq]
  · rw [handlePhotolysis_no_pf v names (by simpa using hs)]
    unfold extractedName
    rw [findPF_none_of_no_pf v.toList (by simpa using hs)]
    rfl

theorem processValues_firstSeenFrom (values : List String) :
    ∀ acc : List String,
      processValues values acc = firstSeenFrom acc (values.filterMap extractedName) := by
  induction values with
  | nil => intro acc; rfl
  | cons v vs ih =>
    intro acc
    show processValues vs (handlePhotolysis v acc).2 = _
    rw [handlePhotolysis_snd v acc]
    rcases he : extractedName v with _ | n
    · rw [List.filterMap_cons_none he]
      exact ih acc
    · rw [List.filterMap_cons_some he]
      exact ih _

theorem firstSeenFrom_nodup (l : List String) :
    ∀ acc : List String, acc.Nodup → (firstSeenFrom acc l).Nodup := by
  induction l with
  | nil => intro acc h; exact h
  | cons n ns ih =>
    intro acc h
    show (firstSeenFrom (if acc.contains n then acc else acc ++ [n]) ns).Nodup
    by_cases hc : acc.contains n = true
    · rw [if_pos hc]
      exact ih acc h
    · rw [if_neg hc]
      refine ih _ ?_
      rw [List.nodup_append]
      refine ⟨h, List.nodup_singleton n, ?_⟩
      intro a ha hb
      rcases List.mem_singleton.mp hb with rfl
      have : a ∈ acc := ha
      rw [← List.elem_iff] at this
      exact hc this

/-- C4: a rate fragment whose `PF=<name>` pattern matches translates to the
normalized name (hyphens to underscores, `C2CHOabs` aliased to `C2CHO`),
with ` * <yield>` appended when a `QY=` value is present; the name is
appended to the accumulator only when absent, so across a run the
accumulator is exactly the distinct extracted names in first-seen order —
in particular `PF=ISOP QY=0.5` gives `ISOP * 0.5` and registers `ISOP`
once even when seen again. -/
theorem handlePhotolysis_registers :
    (∀ (v : String) (names : List String) (raw : List Char),
      findPF v.toList = some raw →
      handlePhotolysis v names =
        ((match findQY v.toList with
          | some y => pfNormalize (String.mk raw) ++ " * " ++ String.mk y
          | none => pfNormalize (String.mk raw)),
         if names.contains (pfNormalize (String.mk raw)) then names
         else names ++ [pfNormalize (String.mk raw)]))
    ∧ (∀ values : List String,
        processValues values [] = firstSeen (values.filterMap extractedName))
    ∧ (∀ l : List String, (firstSeen l).Nodup)
    ∧ handlePhotolysis "PF=ISOP QY=0.5" [] = ("ISOP * 0.5", ["ISOP"])
    ∧ processValues ["PF=ISOP QY=0.5", "a PF=ISOP"] [] = ["ISOP"] := by
  refine ⟨?_, ?_, ?_, by decide, by decide⟩
  · intro v names raw h
    unfold handlePhotolysis
    rw [findPF_some_hasSub v.toList raw h, h]
    rcases hq : findQY v.toList with _ | y <;> simp [hq]
  · intro values
    exact processValues_firstSeenFrom values []
  · intro l
    exact firstSeenFrom_nodup l [] List.nodup_nil

/-- C4 witness: the general clauses instantiated at a hyphenated name with
a yield, and at a repeated name. -/
theorem handlePhotolysis_registers_witness :
    handlePhotolysis "x PF=A-B QY=2" ["Z"] = ("A_B * 2", ["Z", "A_B"])
    ∧ processValues ["PF=Q1", "PF=Q1"] []
        = firstSeen (["PF=Q1", "PF=Q1"].filterMap extractedName) :=
  ⟨(handlePhotolysis_registers.1 "x PF=A-B QY=2" ["Z"] "A-B".toList
      (by decide)).trans (by decide),
   handlePhotolysis_registers.2.1 ["PF=Q1", "PF=Q1"]⟩

/-! ## C5 -/

/-- C5 counterexample: with precursor `ISOPRENE` and cutoff 2 in
single-generation mode, the record with reactant identifier
`ISOPRENEr3_x` is not skipped — the run aborts, because the identifier's
last underscore segment `x` has no digits and `int("")` raises. -/
theorem radicalCutoff_counterexample :
    formatForF0am cfgIsoX ["R) 1.0 2.0 ; ISOPRENEr3_x = A"]
      = .error "ValueError: int() argument has no digits"
    ∧ formatForF0am cfgIsoX ["R) 1.0 2.0 ; ISOPRENEr2_x = A"]
      = .error "ValueError: int() argument has no digits" := by
  constructor
  · decide
  · decide

/-- C5 (amended): the generation number is the decimal value of the digit
characters of the identifier's last underscore-delimited segment;
`ISOPRENEr3` (generation 3) is skipped under cutoff 2 while `ISOPRENEr2`
(generation 2) is retained, and an identifier whose last segment has no
digit, such as `ISOPRENEr3_x`, makes the run raise instead of skipping. -/
theorem radicalCutoff_filter :
    blocksReactants (formatForF0am cfgIso
        ["R) 1.0 2.0 ; ISOPRENEr3 = A", "R) 1.0 2.0 ; ISOPRENEr2 = A"])
      = some [["ISOPRENEr2"]]
    ∧ genNumber "ISOPRENEr3" = some 3
    ∧ genNumber "ISOPRENEr2" = some 2
    ∧ genNumber "ISOPRENEr3_x" = none := by
  refine ⟨by decide, by decide, by decide, by decide⟩

/-! ## C8 -/

theorem idxOf?_drop (a : String) :
    ∀ (l : List String) (k i : Nat), idxOf? l a = some i → k ≤ i →
      idxOf? (l.drop k) a = some (i - k) := by
  intro l
  induction l with
  | nil => intro k i h _; cases h
  | cons x xs ih =>
    intro k i h hk
    cases k with
    | zero => simpa using h
    | succ k =>
      unfold idxOf? at h
      by_cases hx : x = a
      · rw [if_pos hx] at h
        injection h with h0
        have h0' : 0 = i := h0
        omega
      · rw [if_neg hx] at h
        rcases hj : idxOf? xs a with _ | j
        · rw [hj] at h
          cases h
        · rw [hj] at h
          injection h with h0
          have h0' : j + 1 = i := h0
          have hkj : k ≤ j := by omega
          have := ih k j hj hkj
          show idxOf? (xs.drop k) a = some (i - (k + 1))
          rw [this]
          congr 1
          omega

/-- C8 counterexample: when the end-marker text occurs before the start
marker, `extract_species` bounds the section with that earlier occurrence
(the section collapses to empty), while the forward-scanning reading of
the spec extracts the data line. -/
theorem extractSpecies_end_counterexample :
    extractSpecies [".RXN", ".STS", "x ! X", ".RXN"] ".STS" ".RXN" = .ok []
    ∧ extractSpeciesForward [".RXN", ".STS", "x ! X", ".RXN"] ".STS" ".RXN"
        = .ok [⟨"X", "x"⟩] := by
  constructor
  · decide
  · decide

/-- C8 (amended): the end marker used by `extract_species` is the first
line of the whole file equal to the end-marker text, searched from the
beginning: when that occurrence precedes the start marker the section is
empty, and only when it follows the start marker does the result agree
with the spec's forward scan. -/
theorem extractSpecies_end_marker (lines : List String) (s e : String)
    (si ei : Nat) (hs : idxOf? lines s = some si)
    (he : idxOf? lines e = some ei) :
    (ei < si + 1 → extractSpecies lines s e = .ok [])
    ∧ (si < ei →
        extractSpecies lines s e = extractSpeciesForward lines s e) := by
  constructor
  · intro hlt
    unfold extractSpecies
    rw [hs, he]
    dsimp only
    have hnil : sliceList lines (si + 1) ei = [] := by
      unfold sliceList
      apply List.drop_eq_nil_of_le
      calc (lines.take ei).length ≤ ei := by
            rw [List.length_take]; omega
        _ ≤ si + 1 := by omega
    rw [hnil]
    rfl
  · intro hlt
    have hfrom : idxOfFrom? lines e (si + 1) = some ei := by
      unfold idxOfFrom?
      rw [idxOf?_drop e lines (si + 1) ei he (by omega)]
      show some (ei - (si + 1) + (si + 1)) = some ei
      congr 1
      omega
    unfold extractSpecies extractSpeciesForward
    rw [hs]
    dsimp only
    rw [he, hfrom]

/-- C8 witness: the amended clauses at concrete files for both relative
orders of the markers. -/
theorem extractSpecies_end_marker_witness :
    extractSpecies [".RXN", ".STS", "x ! X", ".RXN"] ".STS" ".RXN" = .ok []
    ∧ extractSpecies [".STS", "x ! X", ".RXN"] ".STS" ".RXN"
        = extractSpeciesForward [".STS", "x ! X", ".RXN"] ".STS" ".RXN" :=
  ⟨(extractSpecies_end_marker [".RXN", ".STS", "x ! X", ".RXN"]
       ".STS" ".RXN" 1 0 (by decide) (by decide)).1 (by decide),
   (extractSpecies_end_marker [".STS", "x ! X", ".RXN"]
       ".STS" ".RXN" 0 2 (by decide) (by decide)).2 (by decide)⟩

/-! ## C2 -/

theorem compileStep_skip_delim {cfg : Config} {i : Nat}
    {names : List String} {r : String}
    (h : (recParts r).length < 2) :
    compileStep cfg i names r = .ok (none, names) := by
  unfold compileStep
  rw [if_pos h]

theorem compileStep_skip_ref {cfg : Config} {i : Nat}
    {names : List String} {r : String} {refs : List String}
    (h1 : cfg.reference = some refs)
    (h2 : refs.contains (recReactantPart r) = true) :
    compileStep cfg i names r = .ok (none, names) := by
  unfold compileStep
  by_cases hd : (recParts r).length < 2
  · rw [if_pos hd]
  · rw [if_neg hd, if_pos (by rw [h1]; exact h2)]

theorem compileStep_skip_compound {cfg : Config} {i : Nat}
    {names : List String} {r : String}
    (h : cfg.compounds.contains (recSpeciesLabel r) = false) :
    compileStep cfg i names r = .ok (none, names) := by
  unfold compileStep
  by_cases hd : (recParts r).length < 2
  · rw [if_pos hd]
  · rw [if_neg hd]
    by_cases hr : (match cfg.reference with
        | some refs => refs.contains (recReactantPart r)
        | none => false) = true
    · rw [if_pos hr]
    · rw [if_neg hr, if_pos (by rw [h]; rfl)]

theorem compileStep_skip_cutoff {cfg : Config} {i : Nat}
    {names : List String} {r : String} {n : Nat}
    (hcut : cfg.radicalCutoff ≠ 0)
    (hsw : pyStartsWith (recReactantPart r) (radicalStart cfg) = true)
    (hgen : genNumber (recSpeciesLabel r) = some n)
    (hgt : cfg.radicalCutoff < n) :
    compileStep cfg i names r = .ok (none, names) := by
  unfold compileStep
  by_cases hd : (recParts r).length < 2
  · rw [if_pos hd]
  · rw [if_neg hd]
    by_cases hr : (match cfg.reference with
        | some refs => refs.contains (recReactantPart r)
        | none => false) = true
    · rw [if_pos hr]
    · rw [if_neg hr]
      by_cases hc : (!cfg.compounds.contains (recSpeciesLabel r)) = true
      · rw [if_pos hc]
      · rw [if_neg hc, if_pos (by simp [hcut, hsw]), hgen]
        dsimp only
        rw [if_pos hgt]

theorem formatForF0amAux_skip {cfg : Config} {i : Nat}
    {names : List String} {r : String} {rs : List String}
    (h : compileStep cfg i names r = .ok (none, names)) :
    formatForF0amAux cfg (r :: rs) i names = formatForF0amAux cfg rs i names := by
  conv_lhs => unfold formatForF0amAux
  rw [h]

/-- C2 counterexample: a record carrying the `;` delimiter, a known first
species and a numeric rate, but whose equation clause has no `=`, makes
`format_for_f0am` raise after passing every soft filter — so the reaction
parser's missing start marker is not the only fatal condition. -/
theorem formatForF0am_raises_counterexample :
    formatForF0am cfgA ["R) 1.0 2.0 ; A"]
      = .error "ValueError: equation does not unpack into two parts" := by
  decide

/-- C2 (amended): the five listed per-record conditions are soft — a record
missing the `;` delimiter, one whose reactant side is in the reference
set, one whose first species is undefined, and one whose radical
generation exceeds the cutoff are each skipped with no effect on the rest
of the run, and a non-numeric 2/3-token rate falls back to the original
text — and a missing `.RXN` marker is fatal in `parse_reactions`; but
`format_for_f0am` is not exception-free: a filtered-in record whose
equation clause does not split into exactly two parts on `=` (or whose
radical label lacks digits under an active cutoff) raises. -/
theorem softFilters_skip_and_continue :
    (∀ lines : List String, idxOf? lines ".RXN" = none →
      parseReactions lines = .error "ValueError: .RXN marker not found")
    ∧ (∀ (cfg : Config) (i : Nat) (names : List String) (r : String)
        (rs : List String), (recParts r).length < 2 →
        formatForF0amAux cfg (r :: rs) i names
          = formatForF0amAux cfg rs i names)
    ∧ (∀ (cfg : Config) (i : Nat) (names : List String) (r : String)
        (rs : List String) (refs : List String),
        cfg.reference = some refs →
        refs.contains (recReactantPart r) = true →
        formatForF0amAux cfg (r :: rs) i names
          = formatForF0amAux cfg rs i names)
    ∧ (∀ (cfg : Config) (i : Nat) (names : List String) (r : String)
        (rs : List String),
        cfg.compounds.contains (recSpeciesLabel r) = false →
        formatForF0amAux cfg (r :: rs) i names
          = formatForF0amAux cfg rs i names)
    ∧ (∀ (cfg : Config) (i : Nat) (names : List String) (r : String)
        (rs : List String) (n : Nat),
        cfg.radicalCutoff ≠ 0 →
        pyStartsWith (recReactantPart r) (radicalStart cfg) = true →
        genNumber (recSpeciesLabel r) = some n →
        cfg.radicalCutoff < n →
        formatForF0amAux cfg (r :: rs) i names
          = formatForF0amAux cfg rs i names)
    ∧ (∀ (s : String) (names : List String),
        hasSub ("PF=".toList) s.toList = false →
        ((pySplitWsStr s).length = 2 ∨ (pySplitWsStr s).length = 3 →
          parseFloat ((pySplitWsStr s).headD "") = none
          ∨ parseFloat ((pySplitWsStr s).getD 1 "") = none) →
        formatRate s names = (s, names)) := by
  refine ⟨?_, ?_, ?_, ?_, ?_, ?_⟩
  · intro lines h
    unfold parseReactions
    rw [h]
  · intro cfg i names r rs h
    exact formatForF0amAux_skip (compileStep_skip_delim h)
  · intro cfg i names r rs refs h1 h2
    exact formatForF0amAux_skip (compileStep_skip_ref h1 h2)
  · intro cfg i names r rs h
    exact formatForF0amAux_skip (compileStep_skip_compound h)
  · intro cfg i names r rs n hcut hsw hgen hgt
    exact formatForF0amAux_skip (compileStep_skip_cutoff hcut hsw hgen hgt)
  · intro s names hpf hfail
    unfold formatRate
    rw [handlePhotolysis_no_pf s names hpf]
    dsimp only
    rw [if_neg (by simp)]
    by_cases h3 : (pySplitWsStr s).length = 3
    · rw [if_pos h3]
      rcases hA : parseFloat ((pySplitWsStr s).headD "") with _ | A
      · rfl
      · rcases hB : parseFloat ((pySplitWsStr s).getD 1 "") with _ | B
        · rfl
        · rcases hfail (Or.inr h3) with hn | hn
          · rw [hA] at hn
            cases hn
          · rw [hB] at hn
            cases hn
    · rw [if_neg h3]
      by_cases h2 : (pySplitWsStr s).length = 2
      · rw [if_pos h2]
        rcases hA : parseFloat ((pySplitWsStr s).headD "") with _ | A
        · rfl
        · rcases hB : parseFloat ((pySplitWsStr s).getD 1 "") with _ | B
          · rfl
          · rcases hfail (Or.inl h2) with hn | hn
            · rw [hA] at hn
              cases hn
            · rw [hB] at hn
              cases hn
      · rw [if_neg h2]

/-- C2 witness: each amended clause at a concrete input — a file without
`.RXN`, a delimiterless record, a reference-set hit, an undefined species,
an over-cutoff radical, and a non-numeric rate. -/
theorem softFilters_skip_and_continue_witness :
    parseReactions ["x"] = .error "ValueError: .RXN marker not found"
    ∧ formatForF0amAux cfgA ["no delimiter"] 1 []
        = formatForF0amAux cfgA [] 1 []
    ∧ formatForF0amAux cfgR ["R) 1.0 2.0 ; A = B"] 1 []
        = formatForF0amAux cfgR [] 1 []
    ∧ formatForF0amAux cfgA ["R) 1.0 2.0 ; Z = B"] 1 []
        = formatForF0amAux cfgA [] 1 []
    ∧ formatForF0amAux cfgIso ["R) 1.0 2.0 ; ISOPRENEr3 = A"] 1 []
        = formatForF0amAux cfgIso [] 1 []
    ∧ formatRate "abc def" [] = ("abc def", []) :=
  ⟨softFilters_skip_and_continue.1 ["x"] (by decide),
   softFilters_skip_and_continue.2.1 cfgA 1 [] "no delimiter" [] (by decide),
   softFilters_skip_and_continue.2.2.1 cfgR 1 [] "R) 1.0 2.0 ; A = B" []
     ["A"] (by decide) (by decide),
   softFilters_skip_and_continue.2.2.2.1 cfgA 1 [] "R) 1.0 2.0 ; Z = B" []
     (by decide),
   softFilters_skip_and_continue.2.2.2.2.1 cfgIso 1 []
     "R) 1.0 2.0 ; ISOPRENEr3 = A" [] 3 (by decide) (by decide) (by decide)
     (by decide),
   softFilters_skip_and_continue.2.2.2.2.2 "abc def" [] (by decide)
     (fun _ => Or.inl (by decide))⟩

/-! ## C9 -/

theorem mem_reactantFLines (rad : String) :
    ∀ (rs : List String) (r : String), r ∈ rs → r ≠ "HV" →
      pyStartsWith r rad = true → ro2MinusLine ∈ reactantFLines rad rs := by
  intro rs
  induction rs with
  | nil => intro r hr; cases hr
  | cons a t ih =>
    intro r hr hne hsw
    rcases List.mem_cons.mp hr with rfl | htail
    · show ro2MinusLine ∈
        (if r = "HV" then []
         else ("f" ++ r ++ "(i) = f" ++ r ++ "(i) - 1;")
           :: (if pyStartsWith r rad then ["fRO2(i) = fRO2(i) - 1;"] else []))
        ++ reactantFLines rad t
      rw [if_neg hne, if_pos hsw]
      exact List.mem_append_left _ (List.mem_cons_of_mem _ (List.mem_singleton_self _))
    · exact List.mem_append_right _ (ih r htail hne hsw)

theorem productFLines_snd (ps : Bool) (rad : String) :
    ∀ es : List String,
      (productFLines ps rad es).2 =
        (es.map (fun e =>
          if pyTrim (parseProductEntry e).2 ≠ ""
              ∧ pyStartsWith (parseProductEntry e).2 rad = true
          then (parseProductEntry e).1 else 0)).sum := by
  intro es
  induction es with
  | nil => rfl
  | cons e t ih =>
    by_cases ht : pyTrim (parseProductEntry e).2 ≠ ""
    · by_cases hsw : pyStartsWith (parseProductEntry e).2 rad = true
      · simp [productFLines, ht, hsw, ih]
      · simp [productFLines, ht, hsw, ih]
    · simp [productFLines, ht, ih]

/-- C9 counterexample: the record `R) 1.0 2.0 ; Pr1 = A` (one radical
reactant, no radical product) compiles to a block whose net radical-pool
delta is −1 yet which contains an `fRO2` stoichiometry line; the record
`R) 1.0 2.0 ; Pr1 = Pr2` has net delta 0 yet its block contains the
`fRO2 ... + 1.0` line. -/
theorem ro2Lines_counterexample :
    (firstBlock? (formatForF0am cfgP ["R) 1.0 2.0 ; Pr1 = A"])).map
        blockNetRO2 = some (-1)
    ∧ (firstBlock? (formatForF0am cfgP ["R) 1.0 2.0 ; Pr1 = A"])).map
        (fun b => b.flines.contains ro2MinusLine) = some true
    ∧ (firstBlock? (formatForF0am cfgP ["R) 1.0 2.0 ; Pr1 = Pr2"])).map
        (fun b => (blockNetRO2 b, b.flines.contains (ro2PlusLine 1)))
        = some (0, true) := by
  refine ⟨by decide, by decide, by decide⟩

/-- C9 (amended): every radical-prefixed non-photon reactant contributes
its own `fRO2` decrement line regardless of the net; `ro2_count` is the
product-side radical yield sum (one `if`-guarded summand per product
entry), and the single `fRO2` increment line carrying that sum is appended
exactly when the product-side sum — not the net — is positive. -/
theorem compileRest_ro2 (cfg : Config) (i : Nat) (names : List String)
    (info eqn : String) (b : Block) (ns : List String)
    (h : compileRest cfg i names info eqn = .ok (some b, ns)) :
    b.ro2Count = (productFLines cfg.paraSoa (radicalStart cfg)
        (prodEntriesOf eqn)).2
    ∧ (¬ 0 < b.ro2Count →
        b.flines = reactantFLines (radicalStart cfg) b.reactants
          ++ (productFLines cfg.paraSoa (radicalStart cfg)
                (prodEntriesOf eqn)).1)
    ∧ (0 < b.ro2Count →
        b.flines = reactantFLines (radicalStart cfg) b.reactants
          ++ (productFLines cfg.paraSoa (radicalStart cfg)
                (prodEntriesOf eqn)).1
          ++ [ro2PlusLine b.ro2Count])
    ∧ (∀ r ∈ b.reactants, r ≠ "HV" →
        pyStartsWith r (radicalStart cfg) = true →
        ro2MinusLine ∈ b.flines) := by
  unfold compileRest at h
  dsimp only at h
  by_cases hlen : (strSplitChar eqn '=').length = 2
  · rw [if_pos hlen] at h
    simp only [Except.ok.injEq, Prod.mk.injEq, Option.some.injEq] at h
    obtain ⟨hb, -⟩ := h
    subst hb
    refine ⟨rfl, ?_, ?_, ?_⟩
    · intro h1
      dsimp only at h1 ⊢
      rw [if_neg h1, List.append_nil]
      rfl
    · intro h1
      dsimp only at h1 ⊢
      rw [if_pos h1]
      rfl
    · intro r hr hne hsw
      dsimp only at hr ⊢
      refine List.mem_append_left _ (List.mem_append_left _ ?_)
      exact mem_reactantFLines (radicalStart cfg) _ r hr hne hsw
  · rw [if_neg hlen] at h
    cases h

/-- C9 witness: the amended clauses at the concrete radical-reactant
record behind `c9Block`. -/
theorem compileRest_ro2_witness :
    c9Block.ro2Count = (productFLines cfgP.paraSoa (radicalStart cfgP)
        (prodEntriesOf "Pr1 = A")).2
    ∧ c9Block.flines = reactantFLines (radicalStart cfgP) c9Block.reactants
        ++ (productFLines cfgP.paraSoa (radicalStart cfgP)
              (prodEntriesOf "Pr1 = A")).1
    ∧ ro2MinusLine ∈ c9Block.flines :=
  have h : compileRest cfgP 1 [] "R) 1.0 2.0" "Pr1 = A"
      = .ok (some c9Block, []) := by decide
  ⟨(compileRest_ro2 cfgP 1 [] "R) 1.0 2.0" "Pr1 = A" c9Block [] h).1,
   (compileRest_ro2 cfgP 1 [] "R) 1.0 2.0" "Pr1 = A" c9Block [] h).2.1
     (by decide),
   (compileRest_ro2 cfgP 1 [] "R) 1.0 2.0" "Pr1 = A" c9Block [] h).2.2.2
     "Pr1" (by decide) (by decide) (by decide)⟩

/-! ## C7 -/

theorem find?_filter_some {α : Type} {p q : α → Bool} {l : List α} {c : α}
    (h : l.find? p = some c) (hq : q c = true) :
    (l.filter q).find? p = some c := by
  induction l with
  | nil => cases h
  | cons a t ih =>
    rcases hpa : p a with _ | _
    · rw [List.find?_cons_of_neg _ (by simp [hpa])] at h
      by_cases hqa : q a = true
      · rw [List.filter_cons_of_pos hqa,
          List.find?_cons_of_neg _ (by simp [hpa])]
        exact ih h
      · rw [List.filter_cons_of_neg (by simpa using hqa)]
        exact ih h
    · rw [List.find?_cons_of_pos _ hpa] at h
      injection h with h0
      subst h0
      rw [List.filter_cons_of_pos hq, List.find?_cons_of_pos _ hpa]

theorem find?_filter_none {α : Type} {p q : α → Bool} {l : List α}
    (h : l.find? p = none) : (l.filter q).find? p = none := by
  rw [List.find?_eq_none] at h ⊢
  intro a ha
  exact h a (List.mem_of_mem_filter ha)

theorem scanFrom_filter (text : List Char) (L : List (List Char))
    (q : List Char → Bool) :
    ∀ (fuel p : Nat),
      (∀ c ∈ scanFrom L text fuel p, q c = true) →
      scanFrom (L.filter q) text fuel p = scanFrom L text fuel p := by
  intro fuel
  induction fuel with
  | zero => intro p _; rfl
  | succ fuel ih =>
    intro p hmem
    unfold scanFrom at hmem ⊢
    split_ifs at hmem ⊢ with hg
    · rfl
    · rcases hfm : firstMatchAt L text p with _ | c
      · have hfm2 : firstMatchAt (L.filter q) text p = none := by
          unfold firstMatchAt at hfm ⊢
          exact find?_filter_none hfm
        rw [hfm2]
        rw [hfm] at hmem
        dsimp only at hmem ⊢
        exact ih (p + 1) hmem
      · rw [hfm] at hmem
        dsimp only at hmem
        have hqc : q c = true := hmem c (List.mem_cons_self _ _)
        have hfm2 : firstMatchAt (L.filter q) text p = some c := by
          unfold firstMatchAt at hfm ⊢
          exact find?_filter_some hfm hqc
        rw [hfm2]
        dsimp only
        have htail := fun d hd => hmem d (List.mem_cons_of_mem _ hd)
        rw [ih _ htail]

theorem scanFrom_sound (text : List Char) (L : List (List Char)) :
    ∀ (fuel p : Nat) (c : List Char), c ∈ scanFrom L text fuel p →
      c ∈ L ∧ hasOccList c text = true := by
  intro fuel
  induction fuel with
  | zero => intro p c h; cases h
  | succ fuel ih =>
    intro p c h
    unfold scanFrom at h
    split_ifs at h with hg
    · cases h
    · rcases hfm : firstMatchAt L text p with _ | d
      · rw [hfm] at h
        exact ih (p + 1) c h
      · rw [hfm] at h
        dsimp only at h
        rcases List.mem_cons.mp h with rfl | htail
        · unfold firstMatchAt at hfm
          refine ⟨List.mem_of_find?_eq_some hfm, ?_⟩
          have hmatch := List.find?_some hfm
          unfold hasOccList
          rw [List.any_eq_true]
          exact ⟨p, List.mem_range.mpr (by omega), hmatch⟩
        · exact ih _ c htail

theorem isPrefixOf_get? {d text : List Char} {s : Nat}
    (h : d.isPrefixOf (text.drop s) = true) {j : Nat} (hj : j < d.length) :
    text.get? (s + j) = d.get? j := by
  obtain ⟨t, ht⟩ := List.isPrefixOf_iff_prefix.mp h
  calc text.get? (s + j) = (text.drop s).get? j := by
        simp [List.get?_eq_getElem?, List.getElem?_drop]
    _ = (d ++ t).get? j := by rw [ht]
    _ = d.get? j := by simp [List.get?_eq_getElem?, List.getElem?_append_left hj]

theorem wordAt_of_match {text d : List Char} {s : Nat}
    (h : d.isPrefixOf (text.drop s) = true) (hw : d.all wordChar = true)
    {j : Nat} (hj : j < d.length) : wordAt text (s + j) = true := by
  unfold wordAt
  rw [isPrefixOf_get? h hj, List.get?_eq_get hj]
  exact List.all_eq_true.mp hw _ (List.get_mem d j hj)

theorem word_no_boundary_inside {text d : List Char} {s i : Nat}
    (hpre : d.isPrefixOf (text.drop s) = true) (hw : d.all wordChar = true)
    (h1 : s < i) (h2 : i < s + d.length) : boundaryB text i = false := by
  have hwl : wordAt text (i - 1) = true := by
    have harith : i - 1 = s + (i - 1 - s) := by omega
    rw [harith]
    exact wordAt_of_match hpre hw (by omega)
  have hwr : wordAt text i = true := by
    have harith : i = s + (i - s) := by omega
    rw [harith]
    exact wordAt_of_match hpre hw (by omega)
  unfold boundaryB
  rw [if_neg (by omega : ¬ i = 0), hwl, hwr]
  rfl

theorem matchesAt_parts {text c : List Char} {p : Nat}
    (h : matchesAt text c p = true) :
    c.isPrefixOf (text.drop p) = true ∧ boundaryB text p = true
      ∧ boundaryB text (p + c.length) = true := by
  have := h
  unfold matchesAt at this
  simp only [Bool.and_eq_true] at this
  exact ⟨this.1.1, this.1.2, this.2⟩

theorem matchesAt_lt_length {text c : List Char} {p : Nat}
    (h : matchesAt text c p = true) (hne : c ≠ []) : p < text.length := by
  obtain ⟨hpre, -, -⟩ := matchesAt_parts h
  have hlen := (List.isPrefixOf_iff_prefix.mp hpre).length_le
  rw [List.length_drop] at hlen
  have hpos : 0 < c.length := List.length_pos.mpr hne
  omega

theorem matchesAt_length_le {text c d : List Char} {p : Nat}
    (hc : matchesAt text c p = true) (hd : matchesAt text d p = true)
    (hcne : c ≠ []) (hdw : d.all wordChar = true) (hle : c.length ≤ d.length) :
    c.length = d.length := by
  by_contra hne
  have hlt : c.length < d.length := lt_of_le_of_ne hle hne
  obtain ⟨hpc, -, hb2⟩ := matchesAt_parts hc
  obtain ⟨hpd, -, -⟩ := matchesAt_parts hd
  have hpos : 0 < c.length := List.length_pos.mpr hcne
  have hfalse := word_no_boundary_inside hpd hdw
    (show p < p + c.length by omega) (show p + c.length < p + d.length by omega)
  rw [hb2] at hfalse
  cases hfalse

theorem matchesAt_unique {text c d : List Char} {p : Nat}
    (hc : matchesAt text c p = true) (hd : matchesAt text d p = true)
    (hcne : c ≠ []) (hcw : c.all wordChar = true)
    (hdne : d ≠ []) (hdw : d.all wordChar = true) : c = d := by
  have hlen : c.length = d.length := by
    rcases le_total c.length d.length with hle | hle
    · exact matchesAt_length_le hc hd hcne hdw hle
    · exact (matchesAt_length_le hd hc hdne hcw hle).symm
  obtain ⟨hpc, -, -⟩ := matchesAt_parts hc
  obtain ⟨hpd, -, -⟩ := matchesAt_parts hd
  have hc' := List.prefix_iff_eq_take.mp (List.isPrefixOf_iff_prefix.mp hpc)
  have hd' := List.prefix_iff_eq_take.mp (List.isPrefixOf_iff_prefix.mp hpd)
  rw [hc', hd', hlen]

theorem matchesAt_no_overlap {text c d : List Char} {s p : Nat}
    (hd : matchesAt text d s = true) (hdw : d.all wordChar = true)
    (hc : matchesAt text c p = true) (_hcne : c ≠ [])
    (_hcw : c.all wordChar = true) (hsp : s < p) : s + d.length ≤ p := by
  by_contra hgt
  have hlt : p < s + d.length := by omega
  obtain ⟨hpd, -, -⟩ := matchesAt_parts hd
  obtain ⟨-, hb1, -⟩ := matchesAt_parts hc
  have hfalse := word_no_boundary_inside hpd hdw hsp hlt
  rw [hb1] at hfalse
  cases hfalse

theorem scanFrom_reaches (text : List Char) (L : List (List Char))
    (HW : ∀ d ∈ L, d ≠ [] ∧ d.all wordChar = true)
    {c : List Char} (hc : c ∈ L) {p : Nat}
    (hm : matchesAt text c p = true) :
    ∀ (fuel s : Nat), s ≤ p → p + 1 ≤ fuel + s →
      c ∈ scanFrom L text fuel s := by
  intro fuel
  induction fuel with
  | zero => intro s hs hf; omega
  | succ fuel ih =>
    intro s hs hf
    have hcprops := HW c hc
    have hplen : p < text.length := matchesAt_lt_length hm hcprops.1
    unfold scanFrom
    rw [if_neg (by omega : ¬ text.length < s)]
    rcases hfm : firstMatchAt L text s with _ | d
    · have hsp : s ≠ p := by
        intro hsp
        subst hsp
        unfold firstMatchAt at hfm
        exact absurd hm (List.find?_eq_none.mp hfm c hc)
      exact ih (s + 1) (by omega) (by omega)
    · have hd := List.find?_some (by unfold firstMatchAt at hfm; exact hfm)
      have hdmem := List.mem_of_find?_eq_some
        (by unfold firstMatchAt at hfm; exact hfm)
      have hdprops := HW d hdmem
      dsimp only
      by_cases hsp : s = p
      · subst hsp
        have : d = c := matchesAt_unique hd hm hdprops.1 hdprops.2
          hcprops.1 hcprops.2
        subst this
        exact List.mem_cons_self _ _
      · have hslt : s < p := by omega
        have hadv : s + d.length ≤ p :=
          matchesAt_no_overlap hd hdprops.2 hm hcprops.1 hcprops.2 hslt
        have hdpos : 0 < d.length := List.length_pos.mpr hdprops.1
        rw [if_neg (by omega : ¬ d.length = 0)]
        refine List.mem_cons_of_mem _ ?_
        exact ih (s + d.length) (by omega) (by omega)

theorem hasOccList_iff_exists (c text : List Char) :
    hasOccList c text = true ↔
      ∃ p, p ≤ text.length ∧ matchesAt text c p = true := by
  unfold hasOccList
  rw [List.any_eq_true]
  constructor
  · rintro ⟨p, hp, hm⟩
    refine ⟨p, ?_, hm⟩
    have := List.mem_range.mp hp
    omega
  · rintro ⟨p, hp, hm⟩
    exact ⟨p, List.mem_range.mpr (by omega), hm⟩

theorem findAll_complete (text : List Char) (L : List (List Char))
    (HW : ∀ d ∈ L, d ≠ [] ∧ d.all wordChar = true)
    {c : List Char} (hc : c ∈ L) (hocc : hasOccList c text = true) :
    c ∈ findAllMatches L text := by
  obtain ⟨p, hp, hm⟩ := (hasOccList_iff_exists c text).mp hocc
  exact scanFrom_reaches text L HW hc hm (text.length + 2) 0
    (by omega) (by omega)

theorem map_filter_comp {α β : Type} (f : α → β) (p : β → Bool)
    (l : List α) :
    (l.filter (fun a => p (f a))).map f = (l.map f).filter p := by
  induction l with
  | nil => rfl
  | cons x xs ih => by_cases h : p (f x) = true <;> simp [h, ih]

/-- C7 counterexample: with the hyphenated compound `A-B` ahead of `B` in
the list, the single reaction text `A-B` retains only `A-B` — yet `B`
does occur as a whole-word match in the combined text (the hyphen is a
word boundary), so the retained-iff-whole-word-occurrence reading fails. -/
theorem cleanNullCompounds_counterexample :
    cleanNullCompounds ["A-B", "B"] ["A-B"] = (["A-B"], ["B"])
    ∧ hasOcc "B" (joinSpace ["A-B"]) = true := by
  constructor
  · decide
  · decide

/-- C7 (amended): every retained compound has a whole-word occurrence in
the concatenated reaction text; the converse — hence the claimed iff —
holds when all compound names are nonempty strings of word characters
(letters, digits, underscore; true of all canonical hyphen-normalized
names); both partitions preserve input order; and the pass is idempotent
on its retained output. -/
theorem cleanNullCompounds_spec :
    (∀ (comps texts : List String) (c : String),
      c ∈ (cleanNullCompounds comps texts).1 →
      c ∈ comps ∧ hasOcc c (joinSpace texts) = true)
    ∧ (∀ (comps texts : List String),
      (∀ c ∈ comps, c ≠ "" ∧ wordOnly c = true) →
      (cleanNullCompounds comps texts).1
        = comps.filter (fun c => hasOcc c (joinSpace texts)))
    ∧ (∀ (comps texts : List String),
      ((cleanNullCompounds comps texts).1.Sublist comps)
      ∧ ((cleanNullCompounds comps texts).2.Sublist comps))
    ∧ (∀ (comps texts : List String),
      cleanNullCompounds (cleanNullCompounds comps texts).1 texts
        = ((cleanNullCompounds comps texts).1, ([] : List String))) := by
  refine ⟨?_, ?_, ?_, ?_⟩
  · intro comps texts c hc
    unfold cleanNullCompounds at hc
    dsimp only at hc
    obtain ⟨hmem, hq⟩ := List.mem_filter.mp hc
    refine ⟨hmem, ?_⟩
    have hin : c.toList ∈ findAllMatches (comps.map String.toList)
        (joinSpace texts).toList := List.elem_iff.mp hq
    exact (scanFrom_sound (joinSpace texts).toList (comps.map String.toList)
      ((joinSpace texts).toList.length + 2) 0 c.toList hin).2
  · intro comps texts hW
    unfold cleanNullCompounds
    dsimp only
    apply List.filter_congr
    intro c hcm
    rw [Bool.eq_iff_iff]
    constructor
    · intro hq
      have hin : c.toList ∈ findAllMatches (comps.map String.toList)
          (joinSpace texts).toList := List.elem_iff.mp hq
      exact (scanFrom_sound (joinSpace texts).toList (comps.map String.toList)
        ((joinSpace texts).toList.length + 2) 0 c.toList hin).2
    · intro hocc
      have hHW : ∀ d ∈ comps.map String.toList,
          d ≠ [] ∧ d.all wordChar = true := by
        intro d hd
        obtain ⟨x, hx, rfl⟩ := List.mem_map.mp hd
        refine ⟨?_, (hW x hx).2⟩
        intro hnil
        exact (hW x hx).1 ((toList_eq_nil_iff x).mp hnil)
      have hin := findAll_complete (joinSpace texts).toList
        (comps.map String.toList) hHW (List.mem_map_of_mem _ hcm) hocc
      exact List.elem_iff.mpr hin
  · intro comps texts
    exact ⟨List.filter_sublist _, List.filter_sublist _⟩
  · intro comps texts
    have hmap : ((comps.filter (fun c => (findAllMatches
          (comps.map String.toList) (joinSpace texts).toList).contains
          c.toList)).map String.toList)
        = (comps.map String.toList).filter
            (fun d => (findAllMatches (comps.map String.toList)
              (joinSpace texts).toList).contains d) :=
      map_filter_comp String.toList _ comps
    have hscan : findAllMatches ((comps.map String.toList).filter
          (fun d => (findAllMatches (comps.map String.toList)
            (joinSpace texts).toList).contains d)) (joinSpace texts).toList
        = findAllMatches (comps.map String.toList) (joinSpace texts).toList := by
      unfold findAllMatches
      apply scanFrom_filter
      intro c hcmem
      exact List.elem_iff.mpr hcmem
    unfold cleanNullCompounds
    dsimp only
    rw [hmap, hscan]
    simp only [Prod.mk.injEq]
    constructor
    · rw [List.filter_filter]
      apply List.filter_congr
      intro a _
      rw [Bool.and_self]
    · rw [List.filter_filter]
      rw [List.filter_eq_nil_iff]
      intro a _
      simp

/-- C7 witness: the amended clauses at concrete inputs — retained
compounds occur whole-word, the word-only characterization on a concrete
run, and idempotence on the hyphenated counterexample input. -/
theorem cleanNullCompounds_spec_witness :
    ("OH" ∈ (["OH", "HO2", "XX"] : List String)
      ∧ hasOcc "OH" (joinSpace ["OH + A = HO2", "B = C"]) = true)
    ∧ (cleanNullCompounds ["OH", "HO2", "XX"] ["OH + A = HO2", "B = C"]).1
        = ["OH", "HO2", "XX"].filter
            (fun c => hasOcc c (joinSpace ["OH + A = HO2", "B = C"]))
    ∧ cleanNullCompounds (cleanNullCompounds ["A-B", "B"] ["A-B"]).1 ["A-B"]
        = ((cleanNullCompounds ["A-B", "B"] ["A-B"]).1, []) :=
  ⟨cleanNullCompounds_spec.1 ["OH", "HO2", "XX"] ["OH + A = HO2", "B = C"]
      "OH" (by decide),
   cleanNullCompounds_spec.2.1 ["OH", "HO2", "XX"] ["OH + A = HO2", "B = C"]
      (by decide),
   cleanNullCompounds_spec.2.2.2 ["A-B", "B"] ["A-B"]⟩

end

end MechGen
